import Mathlib

/- Verification development for the interactive learning application.
The repository sources hold the browser frontend; each definition below is a
shallow embedding of a function from those sources, with JavaScript string
operations modelled over the character list of a Lean String.  Server-side
behavior that the sources only call into is modelled from the specification
and marked as such in its doc comment. -/

/-- Model of the JavaScript truthiness test on a string: a string is falsy
exactly when it is empty. -/
def truthyStr (s : String) : Bool := s != ""

/-- Model of the JavaScript expression a or-else b on strings: a when
truthy, otherwise b. -/
def jsOr (a b : String) : String := if truthyStr a then a else b

/-- Model of the JavaScript trim method: whitespace removed from both
ends. -/
def jsTrim (s : String) : String :=
  ⟨((s.data.dropWhile Char.isWhitespace).reverse.dropWhile Char.isWhitespace).reverse⟩

/-- Model of the JavaScript toLowerCase method, characterwise. -/
def lowerStr (s : String) : String := ⟨s.data.map Char.toLower⟩

/-- Model of the JavaScript startsWith method. -/
def startsWithStr (s p : String) : Bool := p.data.isPrefixOf s.data

/-- Model of the JavaScript split method at a one-character separator. -/
def splitChars (sep : Char) : List Char → List (List Char)
  | [] => [[]]
  | c :: rest =>
    match splitChars sep rest with
    | [] => [[c]]
    | h :: t => if c = sep then [] :: h :: t else (c :: h) :: t

/-- Global settings fields kept by the settings page state and returned by
the settings endpoint. -/
structure AppSettings where
  llm_provider : String
  openai_api_key : String
  openai_model : String
  ollama_base_url : String
  embedding_provider : String
  embedding_model : String
deriving DecidableEq

/-- Readiness of the selected LLM provider as computed in handleSave on the
settings page: an openai provider needs the api key, any other provider
needs the ollama base url. -/
def llmReady (s : AppSettings) : Bool :=
  if s.llm_provider = "openai" then truthyStr s.openai_api_key
  else truthyStr s.ollama_base_url

/-- Readiness of the selected embedding provider as computed in handleSave:
an openai provider needs the api key, anything else passes. -/
def embedReady (s : AppSettings) : Bool :=
  if s.embedding_provider = "openai" then truthyStr s.openai_api_key else true

/-- The validation gate evaluated in handleSave before posting the
settings, and in the warning effect of the settings page. -/
def configReady (s : AppSettings) : Bool := llmReady s && embedReady s

/-- Per-workspace provider fields visible to the study page. -/
structure WorkspaceCfg where
  llm_provider : String
  embedding_provider : String
  ollama_base_url : String

/-- Effective settings as resolved in fetchWorkspace on the study page:
workspace fields override the global ones, the api key is global only. -/
def effectiveSettings (w : WorkspaceCfg) (g : AppSettings) : AppSettings :=
  { llm_provider := jsOr w.llm_provider g.llm_provider
    openai_api_key := g.openai_api_key
    openai_model := g.openai_model
    ollama_base_url := jsOr w.ollama_base_url g.ollama_base_url
    embedding_provider := jsOr w.embedding_provider g.embedding_provider
    embedding_model := g.embedding_model }

/-- The isAiReady computation of fetchWorkspace on the study page, written
exactly as in the source. -/
def isAiReady (w : WorkspaceCfg) (g : AppSettings) : Bool :=
  (if jsOr w.llm_provider g.llm_provider = "openai"
    then truthyStr g.openai_api_key
    else truthyStr (jsOr w.ollama_base_url g.ollama_base_url)) &&
  (if jsOr w.embedding_provider g.embedding_provider = "openai"
    then truthyStr g.openai_api_key
    else true)

/-- Stated from the words of the specification, for comparison with
configReady: both provider and model fields are required for completion and
for embeddings, an openai provider requires the key, ollama requires the
base url, and a huggingface embedding model must be accessible locally
(the flag hfAccessible stands for that accessibility). -/
def specConfigReady (s : AppSettings) (hfAccessible : Bool) : Prop :=
  s.llm_provider ≠ "" ∧ s.openai_model ≠ "" ∧
  (s.llm_provider = "openai" → s.openai_api_key ≠ "") ∧
  (s.llm_provider = "ollama" → s.ollama_base_url ≠ "") ∧
  s.embedding_provider ≠ "" ∧ s.embedding_model ≠ "" ∧
  (s.embedding_provider = "openai" → s.openai_api_key ≠ "") ∧
  (s.embedding_provider = "huggingface" → hfAccessible = true)

/-- A settings state with a huggingface embedding model that has not been
downloaded: the saved key is present, so the code gate passes even though
the specification requires an accessible local model. -/
def c1SettingsState : AppSettings :=
  { llm_provider := "openai"
    openai_api_key := "sk-test"
    openai_model := "gpt-4o"
    ollama_base_url := ""
    embedding_provider := "huggingface"
    embedding_model := "sentence-transformers/all-MiniLM-L6-v2" }

/-- A document row as the study page sees it. -/
structure Doc where
  id : Nat
  status : String
deriving DecidableEq

/-- Count of workspace documents whose status is completed, as filtered on
the study page. -/
def completedCount (docs : List Doc) : Nat :=
  (docs.filter (fun d => d.status == "completed")).length

/-- The tab values of the learning tools panel on the study page. -/
def studyTools : List String :=
  ["chat", "lesson", "flashcards", "quiz", "mindmap", "podcast"]

/-- The study page renders a full-panel overlay over the learning tools
exactly when the loaded workspace has no completed document. -/
def toolsOverlayShown (docs : List Doc) : Bool := completedCount docs == 0

/-- A learning tool is blocked when it is one of the panel tabs and the
overlay is shown in front of the panel. -/
def toolBlocked (docs : List Doc) (tool : String) : Bool :=
  decide (tool ∈ studyTools) && toolsOverlayShown docs

/-- Error taxonomy of the server, as far as the claims need it. -/
inductive AppError where
  | notFound (message : String)
  | validation (message : String)
deriving DecidableEq

/-- Modelled from the spec: the server-side chat and generation guard is
not under the repository sources (only the frontend is); section 7 of the
specification states that chat and generation refuse to run on a workspace
without completed documents with a not-found error carrying the text
"no completed documents". -/
def generationGuard (docs : List Doc) : Except AppError Unit :=
  if completedCount docs = 0 then
    Except.error (AppError.notFound ("no completed documents"))
  else Except.ok ()

/-- A chat transcript message. -/
structure ChatMessage where
  role : String
  content : String
deriving DecidableEq

/-- Body of the chat request posted by the chat interface. -/
structure ChatRequest where
  workspace_id : Nat
  message : String
deriving DecidableEq

/-- Outcome of the chat request as the client distinguishes it: a response
with an answer field, or an error response that may carry a string
detail. -/
inductive ChatOutcome where
  | answer (text : String)
  | failure (detail : Option String)
deriving DecidableEq

/-- Fallback assistant text used by handleSend when the error response has
no string detail. -/
def chatErrorFallback : String := "Sorry, I encountered an error answering that."

/-- handleSend from the chat interface: return unchanged on blank input or
while a request is in flight; otherwise post the chat request and append
the user turn plus an assistant turn holding the answer field, the string
detail of an error response, or the fallback text.  The first component is
the request that was issued, if any. -/
def handleSend (workspaceId : Nat) (messages : List ChatMessage) (input : String)
    (loading : Bool) (outcome : ChatOutcome) : Option ChatRequest × List ChatMessage :=
  if !truthyStr (jsTrim input) || loading then (none, messages)
  else
    let reply : String :=
      match outcome with
      | ChatOutcome.answer t => t
      | ChatOutcome.failure (some d) => d
      | ChatOutcome.failure none => chatErrorFallback
    (some { workspace_id := workspaceId, message := input },
      messages ++ [{ role := "user", content := input },
                   { role := "assistant", content := reply }])

/-- Model of String.fromCharCode at 65 plus the index, as used by the quiz
view to label options and the correct answer. -/
def letterOfIndex (idx : Nat) : String := ⟨[Char.ofNat (65 + idx)]⟩

/-- A quiz question as the generation endpoint returns it. -/
structure RawQuizQuestion where
  question : String
  options : List String
  correct_answer_index : Nat
  explanation : String

/-- A labelled quiz option as the quiz view renders it. -/
structure QuizOption where
  label : String
  text : String
deriving DecidableEq

/-- A quiz question after the transformation in generateQuiz. -/
structure QuizQuestion where
  question : String
  options : List QuizOption
  correct_answer : String
  explanation : String
deriving DecidableEq

/-- The indexed map in generateQuiz that assigns a letter label to each
option position. -/
def labelOptions (idx : Nat) : List String → List QuizOption
  | [] => []
  | t :: rest => { label := letterOfIndex idx, text := t } :: labelOptions (idx + 1) rest

/-- The per-question transformation of generateQuiz in the quiz view. -/
def formatQuestion (q : RawQuizQuestion) : QuizQuestion :=
  { question := q.question
    options := labelOptions 0 q.options
    correct_answer := letterOfIndex q.correct_answer_index
    explanation := q.explanation }

/-- Sample raw question used to witness the quiz label theorem. -/
def c4SampleQuestion : RawQuizQuestion :=
  { question := "q", options := ["w", "x", "y", "z"]
    correct_answer_index := 2, explanation := "e" }

/-- The in-flight test the study page applies to a document status. -/
def inFlight (status : String) : Bool :=
  status == "pending" || status == "processing"

/-- processingCount from the study page: the number of documents whose
status is pending or processing. -/
def processingCount (docs : List Doc) : Nat :=
  (docs.filter (fun d => inFlight d.status)).length

/-- The polling interval the study page passes to setInterval while any
document is in flight, in milliseconds. -/
def pollIntervalMs : Nat := 3000

/-- The polling effect runs exactly when processingCount is nonzero. -/
def pollingActive (docs : List Doc) : Bool := !(processingCount docs == 0)

/-- Modelled from the spec: the ingestion status machine is not under the
repository sources; section 3 of the specification fixes the status
vocabulary of a document. -/
inductive DocStatus where
  | pending
  | processing
  | completed
  | failed
deriving DecidableEq

/-- Wire string of a document status. -/
def DocStatus.str : DocStatus → String
  | DocStatus.pending => "pending"
  | DocStatus.processing => "processing"
  | DocStatus.completed => "completed"
  | DocStatus.failed => "failed"

/-- A podcast version row, oldest first in a store list. -/
structure PodVersion where
  id : Nat
  audio_path : Option String
  created_at : Nat
deriving DecidableEq

/-- Modelled from the spec: the podcast version store is not under the
repository sources; sections 3 and 4.9 of the specification bound the
versions per workspace, topic and type by MAX_VERSIONS, and an insert that
would exceed the cap evicts the oldest version and deletes its audio file.
The second component lists the audio files deleted by the insert. -/
def insertVersion (maxVersions : Nat) (store : List PodVersion) (v : PodVersion) :
    List PodVersion × List String :=
  let grown := store ++ [v]
  if maxVersions < grown.length then
    match grown with
    | [] => ([], [])
    | oldest :: rest => (rest, oldest.audio_path.toList)
  else (grown, [])

/-- The loadVersions default in the podcast view: the max_versions field of
the response, or 3 when the field is missing or falsy. -/
def clientMaxVersions (field : Option Nat) : Nat :=
  match field with
  | none => 3
  | some n => if n = 0 then 3 else n

/-- A synthesis progress event as carried on the event stream. -/
structure ProgressEvent where
  status : String
  progress : Nat
  message : String
deriving DecidableEq

/-- The terminal statuses on which the podcast view closes the event
stream. -/
def isTerminal (e : ProgressEvent) : Bool :=
  e.status == "complete" || e.status == "failed"

/-- Modelled from the spec: the synthesizing event emitted after turn i of
turnCount, with progress floor of the ratio times 100. -/
def synthEvent (turnCount i : Nat) : ProgressEvent :=
  { status := "synthesizing"
    progress := (i + 1) * 100 / turnCount
    message := "Turn " ++ toString (i + 1) ++ "/" ++ toString turnCount }

/-- The final event of a successful synthesis. -/
def completeEvent : ProgressEvent :=
  { status := "complete", progress := 100, message := "" }

/-- Modelled from the spec: the synthesizer is not under the repository
sources; section 4.9 of the specification emits one synthesizing event per
turn and a final complete event at progress 100. -/
def synthesisEvents (turnCount : Nat) : List ProgressEvent :=
  (List.range turnCount).map (synthEvent turnCount) ++ [completeEvent]

/-- Modelled from the spec: a successful synthesis run over the given
turns writes the concatenated audio before the final complete event; the
first component is the stored audio path, the second the emitted event
sequence. -/
def runSynthesis (turns : List String) (audioFile : String) :
    Option String × List ProgressEvent :=
  (some audioFile, synthesisEvents turns.length)

/-- The onmessage handler of the podcast view processes events in order
and closes the stream at the first complete or failed event; this returns
the events the client consumes before closing or exhausting the stream. -/
def clientProcess : List ProgressEvent → List ProgressEvent
  | [] => []
  | e :: rest => if isTerminal e then [e] else e :: clientProcess rest

/-- The client has closed the stream when a terminal event was consumed. -/
def clientClosed (events : List ProgressEvent) : Bool :=
  (clientProcess events).any isTerminal

/-- inferVoiceGender from the voice utilities: other on a missing or empty
voice id, female on a lowercased af or bf prefix before an underscore,
male on am or bm. -/
def inferVoiceGender (voiceId : Option String) : String :=
  match voiceId with
  | none => "other"
  | some s =>
    if s = "" then "other"
    else if startsWithStr (lowerStr s) ("af_") || startsWithStr (lowerStr s) ("bf_") then
      "female"
    else if startsWithStr (lowerStr s) ("am_") || startsWithStr (lowerStr s) ("bm_") then
      "male"
    else "other"

/-- inferGender from the voice selector component, the same test on a
voice id that is always present. -/
def inferGender (voiceId : String) : String :=
  if startsWithStr (lowerStr voiceId) ("af_") || startsWithStr (lowerStr voiceId) ("bf_") then
    "female"
  else if startsWithStr (lowerStr voiceId) ("am_") || startsWithStr (lowerStr voiceId) ("bm_") then
    "male"
  else "other"

/-- A recent voice pair preset as stored by the podcast view. -/
structure VoicePairPreset where
  voiceA : String
  voiceB : String
  ts : Nat
deriving DecidableEq

/-- The deduplication key built in savePreset from the two voice ids. -/
def presetKey (p : VoicePairPreset) : String := p.voiceA ++ "::" ++ p.voiceB

/-- The deduplication loop of savePreset: walk the candidate list, skip
entries whose key was seen, push the rest, and stop once six entries are
kept. -/
def dedupeLoop (seen : List String) (acc : List VoicePairPreset) :
    List VoicePairPreset → List VoicePairPreset
  | [] => acc
  | p :: rest =>
    if presetKey p ∈ seen then dedupeLoop seen acc rest
    else if 6 ≤ (acc ++ [p]).length then acc ++ [p]
    else dedupeLoop (presetKey p :: seen) (acc ++ [p]) rest

/-- The same walk without the size cutoff, used to reason about the
loop. -/
def dedupeKeys (seen : List String) : List VoicePairPreset → List VoicePairPreset
  | [] => []
  | p :: rest =>
    if presetKey p ∈ seen then dedupeKeys seen rest
    else p :: dedupeKeys (presetKey p :: seen) rest

/-- savePreset from the podcast view: prepend the new pair, deduplicate by
key and keep at most six entries. -/
def savePreset (a b : String) (now : Nat) (prev : List VoicePairPreset) :
    List VoicePairPreset :=
  dedupeLoop [] [] ({ voiceA := a, voiceB := b, ts := now } :: prev)

/-- The voice pair carried by a preset. -/
def presetPair (p : VoicePairPreset) : String × String := (p.voiceA, p.voiceB)

/-- The image extensions the study page refuses to upload without an
OpenAI key. -/
def imageExtensions : List String := ["jpg", "jpeg", "png", "webp"]

/-- The extension computed in handleFileUpload: the part after the last
dot of the file name, lowercased. -/
def fileExtension (name : String) : String :=
  lowerStr ⟨(splitChars '.' name.data).getLastD []⟩

/-- The upload error message set by handleFileUpload for an image without
a configured key. -/
def imageUploadError : String :=
  "Image uploads currently require OpenAI Vision (API key). Add your key in Settings or upload a PDF/Word/PPT instead."

/-- What handleFileUpload does with the chosen file: either it stops with
an error message, or it posts the upload request. -/
inductive UploadAction where
  | blocked (message : String)
  | request (workspaceId : Nat) (fileName : String)
deriving DecidableEq

/-- handleFileUpload from the study page: refuse an image file when no
OpenAI key is configured, otherwise post the upload. -/
def handleFileUpload (workspaceId : Nat) (fileName : String) (hasOpenAiKey : Bool) :
    UploadAction :=
  if decide (fileExtension fileName ∈ imageExtensions) && !hasOpenAiKey then
    UploadAction.blocked imageUploadError
  else UploadAction.request workspaceId fileName

/-- The truthiness model agrees with disequality from the empty string. -/
theorem truthyStr_eq_true {s : String} : truthyStr s = true ↔ s ≠ "" := by
  simp [truthyStr]

/-- C1.  The claim reads the readiness gate as requiring every field of
specification section 4.4; the gate in the code never checks the model
fields nor local accessibility of a huggingface embedding model.  Concrete
refutation: a state with an undownloaded huggingface embedding model
passes the code gate while the specification requirement fails. -/
theorem c1_configReady_counterexample :
    configReady c1SettingsState = true ∧ ¬ specConfigReady c1SettingsState false := by
  constructor
  · decide
  · intro h
    exact absurd (h.2.2.2.2.2.2.2 (by decide)) (by decide)

/-- C1 amended.  The settings gate succeeds exactly when the selected LLM
provider has its connection field (key for openai, base url otherwise) and
an openai embedding provider has the key; the study page evaluates the
same gate on the effective workspace-over-global values. -/
theorem c1_configReady_characterization (s : AppSettings) (w : WorkspaceCfg)
    (g : AppSettings) :
    (configReady s = true ↔
      ((s.llm_provider = "openai" → s.openai_api_key ≠ "") ∧
       (s.llm_provider ≠ "openai" → s.ollama_base_url ≠ "") ∧
       (s.embedding_provider = "openai" → s.openai_api_key ≠ ""))) ∧
    isAiReady w g = configReady (effectiveSettings w g) := by
  constructor
  · by_cases h1 : s.llm_provider = "openai" <;>
      by_cases h2 : s.embedding_provider = "openai" <;>
        simp [configReady, llmReady, embedReady, truthyStr, h1, h2]
  · rfl

/-- C2.  With zero completed documents every learning tool sits behind the
full-panel overlay and the modelled server guard refuses with the
not-found error; with at least one completed document the overlay is gone
and the guard passes. -/
theorem c2_no_completed_refusal (docs : List Doc) :
    (completedCount docs = 0 →
      (∀ t ∈ studyTools, toolBlocked docs t = true) ∧
      generationGuard docs = Except.error (AppError.notFound ("no completed documents"))) ∧
    (completedCount docs ≠ 0 →
      toolsOverlayShown docs = false ∧ generationGuard docs = Except.ok ()) := by
  constructor
  · intro h
    refine ⟨fun t ht => ?_, ?_⟩
    · simp [toolBlocked, toolsOverlayShown, h, ht]
    · simp [generationGuard, h]
  · intro h
    refine ⟨?_, ?_⟩
    · simp [toolsOverlayShown, h]
    · simp [generationGuard, h]

/-- C2 witness at a workspace holding one pending document. -/
theorem c2_no_completed_refusal_witness :
    toolBlocked [{ id := 1, status := "pending" }] ("chat") = true ∧
    generationGuard [{ id := 1, status := "pending" }] =
      Except.error (AppError.notFound ("no completed documents")) := by
  have h := (c2_no_completed_refusal [{ id := 1, status := "pending" }]).1 (by decide)
  exact ⟨h.1 ("chat") (by decide), h.2⟩

/-- C3.  The claim quantifies over non-empty inputs, but handleSend
refuses any input that is blank after trimming: a one-space message is
non-empty yet no request is posted. -/
theorem c3_handleSend_counterexample :
    (" " : String) ≠ "" ∧
    (handleSend 1 [] (" ") false (ChatOutcome.answer ("hello"))).1 = none := by
  decide

/-- C3 amended.  For a non-blank input and no request in flight,
handleSend posts the chat body with the workspace id and the unmodified
message, appends the user turn, and appends as assistant turn exactly the
answer field on success or the string detail of an error response. -/
theorem c3_handleSend_behavior (wid : Nat) (messages : List ChatMessage)
    (input : String) (outcome : ChatOutcome) (hblank : jsTrim input ≠ "") :
    (handleSend wid messages input false outcome).1 =
      some { workspace_id := wid, message := input } ∧
    (∀ t, outcome = ChatOutcome.answer t →
      (handleSend wid messages input false outcome).2 =
        messages ++ [{ role := "user", content := input },
                     { role := "assistant", content := t }]) ∧
    (∀ d, outcome = ChatOutcome.failure (some d) →
      (handleSend wid messages input false outcome).2 =
        messages ++ [{ role := "user", content := input },
                     { role := "assistant", content := d }]) := by
  have hb : truthyStr (jsTrim input) = true := truthyStr_eq_true.mpr hblank
  refine ⟨?_, ?_, ?_⟩
  · simp [handleSend, hb]
  · rintro t rfl
    simp [handleSend, hb]
  · rintro d rfl
    simp [handleSend, hb]

/-- C3 witness: a concrete send whose error response carries a string
detail that becomes the assistant turn. -/
theorem c3_handleSend_behavior_witness :
    (handleSend 7 [] ("hi") false (ChatOutcome.failure (some ("oops")))).1 =
      some { workspace_id := 7, message := "hi" } ∧
    (handleSend 7 [] ("hi") false (ChatOutcome.failure (some ("oops")))).2 =
      [{ role := "user", content := "hi" }, { role := "assistant", content := "oops" }] := by
  have h := c3_handleSend_behavior 7 [] ("hi") (ChatOutcome.failure (some ("oops"))) (by decide)
  exact ⟨h.1, h.2.2 ("oops") rfl⟩

/-- C4.  For a question with exactly four options and an answer index
below four, the letter computed from 65 plus the index lies in A to D, it
equals the label given to the option at the answer position, and exactly
one rendered option carries it. -/
theorem c4_quiz_letter (q : RawQuizQuestion) (hlen : q.options.length = 4)
    (hidx : q.correct_answer_index < 4) :
    (formatQuestion q).correct_answer ∈ ["A", "B", "C", "D"] ∧
    ((formatQuestion q).options.get? q.correct_answer_index).map QuizOption.label =
      some (formatQuestion q).correct_answer ∧
    ((formatQuestion q).options.filter
      (fun o => o.label == (formatQuestion q).correct_answer)).length = 1 := by
  obtain ⟨qq, opts, idx, expl⟩ := q
  simp only [formatQuestion] at hlen hidx ⊢
  rcases opts with _ | ⟨a, _ | ⟨b, _ | ⟨c, _ | ⟨d, _ | ⟨e, t⟩⟩⟩⟩⟩ <;> simp_all
  interval_cases idx <;>
    simp [labelOptions, letterOfIndex, List.filter]

/-- C4 witness at the sample question with answer index two. -/
theorem c4_quiz_letter_witness :
    (formatQuestion c4SampleQuestion).correct_answer ∈ ["A", "B", "C", "D"] ∧
    ((formatQuestion c4SampleQuestion).options.get?
        c4SampleQuestion.correct_answer_index).map QuizOption.label =
      some (formatQuestion c4SampleQuestion).correct_answer ∧
    ((formatQuestion c4SampleQuestion).options.filter
      (fun o => o.label == (formatQuestion c4SampleQuestion).correct_answer)).length = 1 :=
  c4_quiz_letter c4SampleQuestion (by decide) (by decide)

/-- C5.  The study page treats exactly pending and processing as in
flight, polls every 3000 milliseconds exactly while some document is in
flight, and a workspace of only completed or failed documents stops the
polling. -/
theorem c5_polling (docs : List Doc) :
    (∀ s : DocStatus, inFlight s.str = true ↔
      (s = DocStatus.pending ∨ s = DocStatus.processing)) ∧
    (pollingActive docs = true ↔ ∃ d ∈ docs, inFlight d.status = true) ∧
    ((∀ d ∈ docs, d.status = "completed" ∨ d.status = "failed") →
      pollingActive docs = false) ∧
    pollIntervalMs = 3000 := by
  have hiff : pollingActive docs = true ↔ ∃ d ∈ docs, inFlight d.status = true := by
    simp [pollingActive, processingCount, List.length_eq_zero, List.filter_eq_nil_iff]
  refine ⟨fun s => by cases s <;> decide, hiff, ?_, rfl⟩
  intro h
  cases hp : pollingActive docs with
  | false => rfl
  | true =>
    obtain ⟨d, hd, hfl⟩ := hiff.mp hp
    rcases h d hd with hs | hs <;> rw [hs] at hfl <;> exact absurd hfl (by decide)

/-- C5 witness: one completed and one failed document do not poll, and the
interval constant is 3000. -/
theorem c5_polling_witness :
    pollingActive [{ id := 1, status := "completed" }, { id := 2, status := "failed" }] = false ∧
    pollIntervalMs = 3000 := by
  have h := c5_polling [{ id := 1, status := "completed" }, { id := 2, status := "failed" }]
  exact ⟨h.2.2.1 (by decide), h.2.2.2⟩

/-- C6.  The client falls back to 3 when the versions response omits
max_versions; the modelled store never grows past the cap on an insert
from a within-cap state, an insert below the cap evicts nothing, and an
insert at the cap evicts exactly the oldest version together with its
audio file. -/
theorem c6_version_cap (maxV : Nat) (store : List PodVersion) (v : PodVersion) :
    clientMaxVersions none = 3 ∧
    (store.length ≤ maxV → ((insertVersion maxV store v).1).length ≤ maxV) ∧
    (store.length < maxV → insertVersion maxV store v = (store ++ [v], [])) ∧
    (∀ oldest rest, store = oldest :: rest → store.length = maxV →
      insertVersion maxV store v = (rest ++ [v], oldest.audio_path.toList)) := by
  refine ⟨rfl, ?_, ?_, ?_⟩
  · intro hle
    cases store with
    | nil =>
      simp only [insertVersion, List.nil_append, List.length_cons, List.length_nil]
      split
      · simp
      · rename_i hnot
        simp only [List.length_cons, List.length_nil] at hnot ⊢
        omega
    | cons s ss =>
      simp only [insertVersion, List.cons_append, List.length_cons]
      split
      · simpa using hle
      · rename_i hnot
        simp only [List.length_cons, List.length_append, List.length_cons,
          List.length_nil] at hnot ⊢
        omega
  · intro hlt
    simp only [insertVersion]
    split
    · rename_i hgt
      simp only [List.length_append, List.length_cons, List.length_nil] at hgt
      omega
    · rfl
  · rintro oldest rest rfl hcap
    simp only [List.length_cons] at hcap
    simp only [insertVersion, List.cons_append]
    split
    · rfl
    · rename_i hnot
      simp only [List.length_cons, List.length_append, List.length_cons,
        List.length_nil] at hnot
      omega

/-- C6 witness: inserting a fourth version into a full store of three
evicts the oldest and deletes its audio file, and the client default is
3. -/
theorem c6_version_cap_witness :
    clientMaxVersions none = 3 ∧
    insertVersion 3
      [{ id := 1, audio_path := some ("a1.wav"), created_at := 1 },
       { id := 2, audio_path := some ("a2.wav"), created_at := 2 },
       { id := 3, audio_path := some ("a3.wav"), created_at := 3 }]
      { id := 4, audio_path := none, created_at := 4 } =
      ([{ id := 2, audio_path := some ("a2.wav"), created_at := 2 },
        { id := 3, audio_path := some ("a3.wav"), created_at := 3 },
        { id := 4, audio_path := none, created_at := 4 }], ["a1.wav"]) := by
  have h := c6_version_cap 3
    [{ id := 1, audio_path := some ("a1.wav"), created_at := 1 },
     { id := 2, audio_path := some ("a2.wav"), created_at := 2 },
     { id := 3, audio_path := some ("a3.wav"), created_at := 3 }]
    { id := 4, audio_path := none, created_at := 4 }
  exact ⟨h.1, h.2.2.2 { id := 1, audio_path := some ("a1.wav"), created_at := 1 }
    [{ id := 2, audio_path := some ("a2.wav"), created_at := 2 },
     { id := 3, audio_path := some ("a3.wav"), created_at := 3 }] rfl rfl⟩

/-- The client consumes a stream of open events followed by one terminal
event in full. -/
theorem clientProcess_open_then_terminal (l : List ProgressEvent) (e : ProgressEvent)
    (hl : ∀ x ∈ l, isTerminal x = false) (he : isTerminal e = true) :
    clientProcess (l ++ [e]) = l ++ [e] := by
  induction l with
  | nil => simp [clientProcess, he]
  | cons a rest ih =>
    have ha : isTerminal a = false := hl a (List.mem_cons_self a rest)
    simp only [List.cons_append, clientProcess, ha, Bool.false_eq_true, if_false]
    exact congrArg (a :: ·) (ih (fun x hx => hl x (List.mem_cons_of_mem a hx)))

/-- The client has closed the stream exactly when the stream held a
terminal event. -/
theorem clientClosed_iff_terminal (evs : List ProgressEvent) :
    clientClosed evs = true ↔ ∃ e ∈ evs, isTerminal e = true := by
  induction evs with
  | nil => simp [clientClosed, clientProcess]
  | cons a rest ih =>
    cases ha : isTerminal a with
    | true =>
      have h1 : clientClosed (a :: rest) = true := by
        simp [clientClosed, clientProcess, ha]
      exact iff_of_true h1 ⟨a, List.mem_cons_self a rest, ha⟩
    | false =>
      have h1 : clientClosed (a :: rest) = clientClosed rest := by
        simp [clientClosed, clientProcess, ha]
      rw [h1, ih]
      constructor
      · rintro ⟨e, he, ht⟩
        exact ⟨e, List.mem_cons_of_mem a he, ht⟩
      · rintro ⟨e, he, ht⟩
        rcases List.mem_cons.mp he with rfl | he2
        · exact absurd ht (by simp [ha])
        · exact ⟨e, he2, ht⟩

/-- C7.  On a successful synthesis of a nonempty script the modelled event
stream has non-decreasing progress values and ends with the complete event
at 100, the stored audio path is set, and the client consumes the whole
stream, closing exactly on a terminal event. -/
theorem c7_sse_progress (n : Nat) (hn : 0 < n) (turns : List String) (audioFile : String) :
    List.Chain' (fun a b => a ≤ b) ((synthesisEvents n).map ProgressEvent.progress) ∧
    (synthesisEvents n).getLast? = some completeEvent ∧
    clientProcess (synthesisEvents n) = synthesisEvents n ∧
    clientClosed (synthesisEvents n) = true ∧
    (runSynthesis turns audioFile).1 ≠ none ∧
    (∀ evs : List ProgressEvent, clientClosed evs = true ↔
      ∃ e ∈ evs, isTerminal e = true) := by
  obtain ⟨m, rfl⟩ : ∃ m, n = m + 1 := ⟨n - 1, by omega⟩
  have hopen : ∀ x ∈ (List.range (m + 1)).map (synthEvent (m + 1)),
      isTerminal x = false := by
    intro x hx
    obtain ⟨i, _, rfl⟩ := List.mem_map.mp hx
    rfl
  have hterm : isTerminal completeEvent = true := rfl
  have hmap : (synthesisEvents (m + 1)).map ProgressEvent.progress =
      (List.range (m + 1)).map (fun i => (i + 1) * 100 / (m + 1)) ++ [100] := by
    simp [synthesisEvents, synthEvent, completeEvent]
  refine ⟨?_, ?_, ?_, ?_, ?_, clientClosed_iff_terminal⟩
  · rw [hmap]
    refine List.chain'_append.mpr ⟨?_, by simp, ?_⟩
    · rw [List.chain'_map, List.chain'_range_succ]
      intro i _
      exact Nat.div_le_div_right (Nat.mul_le_mul_right 100 (by omega))
    · intro x hx y hy
      rw [List.range_succ, List.map_append] at hx
      simp only [List.map_cons, List.map_nil, List.getLast?_concat, Option.mem_def,
        Option.some.injEq] at hx
      simp only [List.head?_cons, Option.mem_def, Option.some.injEq] at hy
      subst hy
      rw [← hx, Nat.mul_div_cancel_left 100 (Nat.succ_pos m)]
  · exact List.getLast?_concat _
  · exact clientProcess_open_then_terminal _ _ hopen hterm
  · exact (clientClosed_iff_terminal _).mpr
      ⟨completeEvent, List.mem_append_right _ (List.mem_cons_self _ _), hterm⟩
  · simp [runSynthesis]

/-- C7 witness on a two-turn script. -/
theorem c7_sse_progress_witness :
    (synthesisEvents 2).getLast? = some completeEvent ∧
    clientProcess (synthesisEvents 2) = synthesisEvents 2 ∧
    clientClosed (synthesisEvents 2) = true ∧
    (runSynthesis ["a", "b"] ("out.wav")).1 ≠ none := by
  have h := c7_sse_progress 2 (by decide) ["a", "b"] ("out.wav")
  exact ⟨h.2.1, h.2.2.1, h.2.2.2.1, h.2.2.2.2.1⟩

/-- Two prefixes of one character list with equal lengths are equal. -/
theorem prefixOf_unique {p q l : List Char} (hp : p.isPrefixOf l = true)
    (hq : q.isPrefixOf l = true) (hlen : p.length = q.length) : p = q := by
  rw [List.isPrefixOf_iff_prefix] at hp hq
  obtain ⟨t1, h1⟩ := hp
  obtain ⟨t2, h2⟩ := hq
  exact (List.append_inj (h1.trans h2.symm) hlen).1

/-- A list cannot have both a female voice marker and a male voice marker
as a prefix. -/
theorem femaleMale_excl {l : List Char}
    (hf : ("af_").data.isPrefixOf l = true ∨ ("bf_").data.isPrefixOf l = true)
    (hm : ("am_").data.isPrefixOf l = true ∨ ("bm_").data.isPrefixOf l = true) :
    False := by
  rcases hf with hf | hf <;> rcases hm with hm | hm <;>
    exact absurd (prefixOf_unique hf hm (by decide)) (by decide)

/-- C8.  inferVoiceGender is total and returns female exactly on a
lowercased af or bf prefix, male exactly on am or bm, and other in every
remaining case, in particular on a missing or empty voice id; the
duplicated inferGender helper of the voice selector agrees with it. -/
theorem c8_inferVoiceGender_total (v : Option String) :
    (inferVoiceGender v = "female" ↔
      ∃ s, v = some s ∧ (startsWithStr (lowerStr s) ("af_") = true ∨
        startsWithStr (lowerStr s) ("bf_") = true)) ∧
    (inferVoiceGender v = "male" ↔
      ∃ s, v = some s ∧ (startsWithStr (lowerStr s) ("am_") = true ∨
        startsWithStr (lowerStr s) ("bm_") = true)) ∧
    (inferVoiceGender v = "other" ↔
      ∀ s, v = some s →
        (startsWithStr (lowerStr s) ("af_") = false ∧
         startsWithStr (lowerStr s) ("bf_") = false ∧
         startsWithStr (lowerStr s) ("am_") = false ∧
         startsWithStr (lowerStr s) ("bm_") = false)) ∧
    inferVoiceGender none = "other" ∧
    inferVoiceGender (some "") = "other" ∧
    (∀ s : String, inferGender s = inferVoiceGender (some s)) := by
  have hdup : ∀ s : String, inferGender s = inferVoiceGender (some s) := by
    intro s
    by_cases hs : s = ""
    · subst hs
      decide
    · simp [inferGender, inferVoiceGender, hs]
  cases v with
  | none =>
    refine ⟨?_, ?_, ?_, rfl, by decide, hdup⟩
    · exact iff_of_false (by decide) (by rintro ⟨s, h, _⟩; exact Option.noConfusion h)
    · exact iff_of_false (by decide) (by rintro ⟨s, h, _⟩; exact Option.noConfusion h)
    · exact iff_of_true rfl (by rintro s h; exact Option.noConfusion h)
  | some s =>
    by_cases hs : s = ""
    · subst hs
      refine ⟨?_, ?_, ?_, rfl, by decide, hdup⟩
      · refine iff_of_false (by decide) ?_
        rintro ⟨t, ht, hcond⟩
        injection ht with ht
        subst ht
        rcases hcond with h | h <;> exact absurd h (by decide)
      · refine iff_of_false (by decide) ?_
        rintro ⟨t, ht, hcond⟩
        injection ht with ht
        subst ht
        rcases hcond with h | h <;> exact absurd h (by decide)
      · refine iff_of_true (by decide) ?_
        intro t ht
        injection ht with ht
        subst ht
        exact ⟨by decide, by decide, by decide, by decide⟩
    · have hval : inferVoiceGender (some s) =
          (if startsWithStr (lowerStr s) ("af_") || startsWithStr (lowerStr s) ("bf_") then
            "female"
          else if startsWithStr (lowerStr s) ("am_") || startsWithStr (lowerStr s) ("bm_") then
            "male"
          else "other") := by
        simp [inferVoiceGender, hs]
      by_cases hfem : (startsWithStr (lowerStr s) ("af_") ||
          startsWithStr (lowerStr s) ("bf_")) = true
      · rw [if_pos hfem] at hval
        refine ⟨iff_of_true hval ⟨s, rfl, Bool.or_eq_true_iff.mp hfem⟩, ?_, ?_, rfl,
          by decide, hdup⟩
        · refine iff_of_false (by rw [hval]; decide) ?_
          rintro ⟨t, ht, hcond⟩
          injection ht with ht
          subst ht
          exact femaleMale_excl (Bool.or_eq_true_iff.mp hfem) hcond
        · refine iff_of_false (by rw [hval]; decide) ?_
          intro hall
          have h4 := hall s rfl
          rcases Bool.or_eq_true_iff.mp hfem with h | h
          · rw [h4.1] at h
            exact Bool.noConfusion h
          · rw [h4.2.1] at h
            exact Bool.noConfusion h
      · have hfem0 : (startsWithStr (lowerStr s) ("af_") ||
            startsWithStr (lowerStr s) ("bf_")) = false := Bool.eq_false_iff.mpr hfem
        rw [if_neg hfem] at hval
        by_cases hmal : (startsWithStr (lowerStr s) ("am_") ||
            startsWithStr (lowerStr s) ("bm_")) = true
        · rw [if_pos hmal] at hval
          refine ⟨?_, iff_of_true hval ⟨s, rfl, Bool.or_eq_true_iff.mp hmal⟩, ?_, rfl,
            by decide, hdup⟩
          · refine iff_of_false (by rw [hval]; decide) ?_
            rintro ⟨t, ht, hcond⟩
            injection ht with ht
            subst ht
            exact femaleMale_excl hcond (Bool.or_eq_true_iff.mp hmal)
          · refine iff_of_false (by rw [hval]; decide) ?_
            intro hall
            have h4 := hall s rfl
            rcases Bool.or_eq_true_iff.mp hmal with h | h
            · rw [h4.2.2.1] at h
              exact Bool.noConfusion h
            · rw [h4.2.2.2] at h
              exact Bool.noConfusion h
        · have hmal0 : (startsWithStr (lowerStr s) ("am_") ||
              startsWithStr (lowerStr s) ("bm_")) = false := Bool.eq_false_iff.mpr hmal
          rw [if_neg hmal] at hval
          have hf := Bool.or_eq_false_iff.mp hfem0
          have hm := Bool.or_eq_false_iff.mp hmal0
          refine ⟨?_, ?_, iff_of_true hval ?_, rfl, by decide, hdup⟩
          · refine iff_of_false (by rw [hval]; decide) ?_
            rintro ⟨t, ht, hcond⟩
            injection ht with ht
            subst ht
            exact hfem (Bool.or_eq_true_iff.mpr hcond)
          · refine iff_of_false (by rw [hval]; decide) ?_
            rintro ⟨t, ht, hcond⟩
            injection ht with ht
            subst ht
            exact hmal (Bool.or_eq_true_iff.mpr hcond)
          · intro t ht
            injection ht with ht
            subst ht
            exact ⟨hf.1, hf.2, hm.1, hm.2⟩

/-- The capped loop of savePreset computes a six-element take of the
uncapped key deduplication. -/
theorem dedupeLoop_eq (l : List VoicePairPreset) :
    ∀ (seen : List String) (acc : List VoicePairPreset), acc.length < 6 →
      dedupeLoop seen acc l = acc ++ (dedupeKeys seen l).take (6 - acc.length) := by
  induction l with
  | nil =>
    intro seen acc _
    simp [dedupeLoop, dedupeKeys]
  | cons p rest ih =>
    intro seen acc hlt
    by_cases hk : presetKey p ∈ seen
    · simp only [dedupeLoop, dedupeKeys, if_pos hk]
      exact ih seen acc hlt
    · simp only [dedupeLoop, dedupeKeys, if_neg hk]
      by_cases hfull : 6 ≤ (acc ++ [p]).length
      · rw [if_pos hfull]
        have h1 : 6 - acc.length = 1 := by
          simp only [List.length_append, List.length_cons, List.length_nil] at hfull
          omega
        rw [h1]
        simp
      · rw [if_neg hfull]
        have hlt2 : (acc ++ [p]).length < 6 := by omega
        rw [ih (presetKey p :: seen) (acc ++ [p]) hlt2]
        obtain ⟨k, hk6⟩ : ∃ k, 6 - acc.length = k + 1 := ⟨5 - acc.length, by omega⟩
        have hk2 : 6 - (acc ++ [p]).length = k := by
          simp only [List.length_append, List.length_cons, List.length_nil]
          omega
        rw [hk6, hk2, List.take_succ_cons, List.append_assoc]
        rfl

/-- savePreset in closed form: the new entry followed by the key
deduplication of the previous list, capped at six. -/
theorem savePreset_eq (a b : String) (now : Nat) (prev : List VoicePairPreset) :
    savePreset a b now prev =
      ({ voiceA := a, voiceB := b, ts := now } ::
        dedupeKeys [presetKey { voiceA := a, voiceB := b, ts := now }] prev).take 6 := by
  unfold savePreset
  rw [dedupeLoop_eq _ [] [] (by decide)]
  simp [dedupeKeys]

/-- Every entry the deduplication keeps comes from the input list. -/
theorem dedupeKeys_subset {q : VoicePairPreset} :
    ∀ (l : List VoicePairPreset) (seen : List String), q ∈ dedupeKeys seen l → q ∈ l := by
  intro l
  induction l with
  | nil =>
    intro seen h
    simp [dedupeKeys] at h
  | cons p rest ih =>
    intro seen h
    by_cases hk : presetKey p ∈ seen
    · simp only [dedupeKeys, if_pos hk] at h
      exact List.mem_cons_of_mem p (ih seen h)
    · simp only [dedupeKeys, if_neg hk] at h
      rcases List.mem_cons.mp h with rfl | h2
      · exact List.mem_cons_self _ _
      · exact List.mem_cons_of_mem p (ih _ h2)

/-- The deduplication never grows the list. -/
theorem dedupeKeys_length_le :
    ∀ (l : List VoicePairPreset) (seen : List String),
      (dedupeKeys seen l).length ≤ l.length := by
  intro l
  induction l with
  | nil =>
    intro seen
    simp [dedupeKeys]
  | cons p rest ih =>
    intro seen
    by_cases hk : presetKey p ∈ seen
    · simp only [dedupeKeys, if_pos hk, List.length_cons]
      exact Nat.le_succ_of_le (ih seen)
    · simp only [dedupeKeys, if_neg hk, List.length_cons]
      exact Nat.succ_le_succ (ih _)

/-- An input entry whose key was already seen makes the deduplication
strictly shorter. -/
theorem dedupeKeys_length_lt :
    ∀ (l : List VoicePairPreset) (seen : List String) (e : VoicePairPreset),
      e ∈ l → presetKey e ∈ seen → (dedupeKeys seen l).length < l.length := by
  intro l
  induction l with
  | nil =>
    intro seen e he _
    exact absurd he (List.not_mem_nil e)
  | cons p rest ih =>
    intro seen e he hk
    by_cases hp : presetKey p ∈ seen
    · simp only [dedupeKeys, if_pos hp, List.length_cons]
      exact Nat.lt_succ_of_le (dedupeKeys_length_le rest seen)
    · simp only [dedupeKeys, if_neg hp, List.length_cons]
      have he2 : e ∈ rest := by
        rcases List.mem_cons.mp he with rfl | h2
        · exact absurd hk hp
        · exact h2
      exact Nat.succ_lt_succ (ih _ e he2 (List.mem_cons_of_mem _ hk))

/-- The deduplication output has pairwise distinct keys, none of them
previously seen. -/
theorem dedupeKeys_keys_nodup :
    ∀ (l : List VoicePairPreset) (seen : List String),
      ((dedupeKeys seen l).map presetKey).Nodup ∧
        ∀ q ∈ dedupeKeys seen l, presetKey q ∉ seen := by
  intro l
  induction l with
  | nil =>
    intro seen
    simp [dedupeKeys]
  | cons p rest ih =>
    intro seen
    by_cases hp : presetKey p ∈ seen
    · simpa only [dedupeKeys, if_pos hp] using ih seen
    · refine ⟨?_, ?_⟩
      · simp only [dedupeKeys, if_neg hp, List.map_cons, List.nodup_cons]
        refine ⟨?_, (ih (presetKey p :: seen)).1⟩
        intro hmem
        obtain ⟨q, hq, hqk⟩ := List.mem_map.mp hmem
        exact (ih (presetKey p :: seen)).2 q hq (hqk ▸ List.mem_cons_self _ _)
      · intro q hq
        simp only [dedupeKeys, if_neg hp] at hq
        rcases List.mem_cons.mp hq with rfl | h2
        · exact hp
        · intro hqs
          exact (ih (presetKey p :: seen)).2 q h2 (List.mem_cons_of_mem _ hqs)

/-- With pairwise distinct input keys, an entry with an unseen key
survives the deduplication. -/
theorem dedupeKeys_complete :
    ∀ (l : List VoicePairPreset) (seen : List String) (q : VoicePairPreset),
      (l.map presetKey).Nodup → q ∈ l → presetKey q ∉ seen →
      q ∈ dedupeKeys seen l := by
  intro l
  induction l with
  | nil =>
    intro seen q _ hq _
    exact absurd hq (List.not_mem_nil q)
  | cons p rest ih =>
    intro seen q hnd hq hs
    rw [List.map_cons] at hnd
    have hnd' := List.nodup_cons.mp hnd
    by_cases hp : presetKey p ∈ seen
    · simp only [dedupeKeys, if_pos hp]
      rcases List.mem_cons.mp hq with rfl | h2
      · exact absurd hp hs
      · exact ih seen q hnd'.2 h2 hs
    · simp only [dedupeKeys, if_neg hp]
      rcases List.mem_cons.mp hq with rfl | h2
      · exact List.mem_cons_self _ _
      · refine List.mem_cons_of_mem _ (ih _ q hnd'.2 h2 ?_)
        intro hmem
        rcases List.mem_cons.mp hmem with heq | h3
        · exact hnd'.1 (heq ▸ List.mem_map_of_mem presetKey h2)
        · exact hs h3

/-- Distinct keys force distinct voice pairs. -/
theorem pairsNodup_of_keysNodup :
    ∀ M : List VoicePairPreset, (M.map presetKey).Nodup → (M.map presetPair).Nodup := by
  intro M
  induction M with
  | nil =>
    intro _
    simp
  | cons q rest ih =>
    intro h
    simp only [List.map_cons, List.nodup_cons] at h ⊢
    refine ⟨?_, ih h.2⟩
    intro hmem
    obtain ⟨q2, hq2, hpair⟩ := List.mem_map.mp hmem
    apply h.1
    have hkey : presetKey q2 = presetKey q := by
      obtain ⟨h1, h2⟩ := Prod.ext_iff.mp hpair
      simp only [presetPair] at h1 h2
      simp [presetKey, h1, h2]
    exact hkey ▸ List.mem_map_of_mem presetKey hq2

/-- C9.  After savePreset the stored list starts with the new pair, holds
pairwise distinct voice pairs, and has at most six entries; resaving a
pair already present in a valid stored list preserves the set of stored
pairs. -/
theorem c9_savePreset_invariants (a b : String) (now : Nat)
    (prev : List VoicePairPreset) :
    (savePreset a b now prev).head? = some { voiceA := a, voiceB := b, ts := now } ∧
    ((savePreset a b now prev).map presetPair).Nodup ∧
    (savePreset a b now prev).length ≤ 6 ∧
    ((prev.map presetKey).Nodup → prev.length ≤ 6 →
      (∃ e ∈ prev, e.voiceA = a ∧ e.voiceB = b) →
      ∀ x y, (∃ q ∈ savePreset a b now prev, q.voiceA = x ∧ q.voiceB = y) ↔
        (∃ q ∈ prev, q.voiceA = x ∧ q.voiceB = y)) := by
  rw [savePreset_eq]
  refine ⟨?_, ?_, ?_, ?_⟩
  · rw [List.take_succ_cons]
    rfl
  · apply pairsNodup_of_keysNodup
    rw [List.map_take]
    refine List.Nodup.sublist (List.take_sublist 6 _) ?_
    rw [List.map_cons]
    refine List.nodup_cons.mpr ⟨?_, (dedupeKeys_keys_nodup prev _).1⟩
    intro hmem
    obtain ⟨q, hq, hqk⟩ := List.mem_map.mp hmem
    exact (dedupeKeys_keys_nodup prev _).2 q hq (hqk ▸ List.mem_cons_self _ _)
  · exact List.length_take_le 6 _
  · rintro hnd hlen ⟨e, he, hea, heb⟩ x y
    have hek : presetKey e = presetKey { voiceA := a, voiceB := b, ts := now } := by
      simp [presetKey, hea, heb]
    have hshort : (dedupeKeys [presetKey { voiceA := a, voiceB := b, ts := now }] prev).length
        < prev.length :=
      dedupeKeys_length_lt prev _ e he (List.mem_singleton.mpr hek)
    have htake : ({ voiceA := a, voiceB := b, ts := now } ::
        dedupeKeys [presetKey { voiceA := a, voiceB := b, ts := now }] prev).take 6 =
        { voiceA := a, voiceB := b, ts := now } ::
        dedupeKeys [presetKey { voiceA := a, voiceB := b, ts := now }] prev := by
      apply List.take_of_length_le
      simp only [List.length_cons]
      omega
    rw [htake]
    constructor
    · rintro ⟨q, hq, hqa, hqb⟩
      rcases List.mem_cons.mp hq with rfl | h2
      · exact ⟨e, he, hea.trans hqa, heb.trans hqb⟩
      · exact ⟨q, dedupeKeys_subset prev _ h2, hqa, hqb⟩
    · rintro ⟨q, hq, hqa, hqb⟩
      by_cases hqk : presetKey q = presetKey { voiceA := a, voiceB := b, ts := now }
      · have hqe : q = e :=
          List.inj_on_of_nodup_map hnd hq he (hqk.trans hek.symm)
        have hax : a = x := by
          rw [← hea, ← hqe]
          exact hqa
        have hby : b = y := by
          rw [← heb, ← hqe]
          exact hqb
        exact ⟨{ voiceA := a, voiceB := b, ts := now }, List.mem_cons_self _ _, hax, hby⟩
      · refine ⟨q, List.mem_cons_of_mem _
          (dedupeKeys_complete prev _ q hnd hq ?_), hqa, hqb⟩
        intro hmem
        exact hqk (List.mem_singleton.mp hmem)

/-- C9 witness: resaving an already stored pair on a valid two-entry
store. -/
theorem c9_savePreset_invariants_witness :
    (savePreset ("af_bella") ("bm_lewis") 5
      [{ voiceA := "af_bella", voiceB := "bm_lewis", ts := 1 },
       { voiceA := "af_sky", voiceB := "bm_george", ts := 2 }]).head? =
      some { voiceA := "af_bella", voiceB := "bm_lewis", ts := 5 } ∧
    ((savePreset ("af_bella") ("bm_lewis") 5
      [{ voiceA := "af_bella", voiceB := "bm_lewis", ts := 1 },
       { voiceA := "af_sky", voiceB := "bm_george", ts := 2 }]).map presetPair).Nodup ∧
    (savePreset ("af_bella") ("bm_lewis") 5
      [{ voiceA := "af_bella", voiceB := "bm_lewis", ts := 1 },
       { voiceA := "af_sky", voiceB := "bm_george", ts := 2 }]).length ≤ 6 ∧
    ((∃ q ∈ savePreset ("af_bella") ("bm_lewis") 5
        [{ voiceA := "af_bella", voiceB := "bm_lewis", ts := 1 },
         { voiceA := "af_sky", voiceB := "bm_george", ts := 2 }],
        q.voiceA = "af_sky" ∧ q.voiceB = "bm_george") ↔
      (∃ q ∈ ([{ voiceA := "af_bella", voiceB := "bm_lewis", ts := 1 },
               { voiceA := "af_sky", voiceB := "bm_george", ts := 2 }] :
                List VoicePairPreset),
        q.voiceA = "af_sky" ∧ q.voiceB = "bm_george")) := by
  have h := c9_savePreset_invariants ("af_bella") ("bm_lewis") 5
    [{ voiceA := "af_bella", voiceB := "bm_lewis", ts := 1 },
     { voiceA := "af_sky", voiceB := "bm_george", ts := 2 }]
  exact ⟨h.1, h.2.1, h.2.2.1,
    h.2.2.2 (by decide) (by decide)
      ⟨{ voiceA := "af_bella", voiceB := "bm_lewis", ts := 1 },
        List.mem_cons_self _ _, rfl, rfl⟩ ("af_sky") ("bm_george")⟩

/-- C10.  handleFileUpload stops with the image error message exactly when
the file extension is an image one and no OpenAI key is configured, and
posts the upload in every other case. -/
theorem c10_upload_guard (wid : Nat) (name : String) (key : Bool) :
    (handleFileUpload wid name key = UploadAction.blocked imageUploadError ↔
      (fileExtension name ∈ imageExtensions ∧ key = false)) ∧
    (¬(fileExtension name ∈ imageExtensions ∧ key = false) →
      handleFileUpload wid name key = UploadAction.request wid name) := by
  by_cases hmem : fileExtension name ∈ imageExtensions <;> cases key <;>
    simp [handleFileUpload, hmem]

/-- C10 witness: an uppercase image extension is blocked without a key and
a pdf posts the upload. -/
theorem c10_upload_guard_witness :
    handleFileUpload 1 ("diagram.PNG") false = UploadAction.blocked imageUploadError ∧
    handleFileUpload 1 ("notes.pdf") false = UploadAction.request 1 ("notes.pdf") := by
  have h1 := c10_upload_guard 1 ("diagram.PNG") false
  have h2 := c10_upload_guard 1 ("notes.pdf") false
  exact ⟨h1.1.mpr ⟨by decide, rfl⟩, h2.2 (by decide)⟩
